import Mathlib

/-!
Verification development for the skbold masked pattern-extraction engine
(`skbold/core/mvp.py`, `skbold/data2mvp/fsl2mvp/fsl2mvp_within.py`,
`skbold/data2mvp/fsl2mvp/fsl2mvp_between.py`).

Modelling conventions:
* numpy float64 values are modelled by `FVal`: exact rationals plus the IEEE
  special values `inf`, `neginf`, `nan`.  A finite result whose exact value is
  not representable as a rational produced by the modelled operations (an
  inexact square root) is abstracted as `FVal.approx` ("some finite value, not
  tracked further").  Rounding of rational arithmetic is not modelled; all
  claims are settled on inputs where the Python computation is exact.
* raveled 3-D volumes are flat `List`s in C (row-major) order; `reshape`
  followed by `ravel` over the same shape is the identity, so boolean masks
  are kept flat throughout.
* file-system and volume I/O are abstracted: the loaded contents are inputs,
  and every I/O action performed by the code is recorded in an `Event` trace.
-/

set_option autoImplicit false

namespace Skbold

/-- Model of a numpy float64 value: an exact rational, an IEEE special value,
or `approx`, an untracked finite value (used where the code computes an
inexact square root; no claim inspects such a value). -/
inductive FVal where
  | finite : ℚ → FVal
  | inf : FVal
  | neginf : FVal
  | nan : FVal
  | approx : FVal
deriving DecidableEq, Repr

/-- numpy `>` against a rational threshold: `nan > t` is false, `inf > t`
is true.  `approx` never appears as mask data in any claim; its comparison
is fixed to `false`. -/
def fgtQ : FVal → ℚ → Bool
  | .finite q, t => decide (t < q)
  | .inf, _ => true
  | .neginf, _ => false
  | .nan, _ => false
  | .approx, _ => false

/-- Floor square root of a natural number (kernel-reducible linear search:
the count of `k ≤ n` with `k * k ≤ n`, less one for `k = 0`). -/
def natSqrt (n : Nat) : Nat :=
  (List.range (n + 1)).countP (fun k => k * k ≤ n) - 1

/-- Exact square root of a nonnegative rational, when it exists.  A reduced
rational has a rational square root iff numerator and denominator are both
perfect squares. -/
def ratSqrt (q : ℚ) : Option ℚ :=
  let n := q.num.toNat
  let d := q.den
  let sn := natSqrt n
  let sd := natSqrt d
  if sn * sn = n ∧ sd * sd = d then some ((sn : ℚ) / (sd : ℚ)) else none

/-- numpy `sqrt` on float64: negative inputs give `nan`, `sqrt inf = inf`.
An inexact finite square root is abstracted as `approx`. -/
def fsqrt : FVal → FVal
  | .finite q =>
      if q < 0 then .nan
      else
        match ratSqrt q with
        | some r => .finite r
        | none => .approx
  | .inf => .inf
  | .neginf => .nan
  | .nan => .nan
  | .approx => .approx

/-- numpy float64 division (`np.divide`): `nan` propagates; a nonzero finite
value divided by zero gives a signed infinity, `0/0` gives `nan`; a finite
value divided by an infinity gives `0` (rationals carry no signed zero).
Any untracked operand yields an untracked result. -/
def divF : FVal → FVal → FVal
  | .nan, _ => .nan
  | _, .nan => .nan
  | .approx, _ => .approx
  | _, .approx => .approx
  | .finite a, .finite b =>
      if b = 0 then
        if a = 0 then .nan else if 0 < a then .inf else .neginf
      else .finite (a / b)
  | .finite _, .inf => .finite 0
  | .finite _, .neginf => .finite 0
  | .inf, .finite b => if b < 0 then .neginf else .inf
  | .neginf, .finite b => if b < 0 then .inf else .neginf
  | .inf, .inf => .nan
  | .inf, .neginf => .nan
  | .neginf, .inf => .nan
  | .neginf, .neginf => .nan

/-- `mvp_data[np.isnan(mvp_data)] = 0`, elementwise: only `nan` is replaced
by `0`; infinities pass through untouched (`np.isnan(inf)` is false). -/
def sanitizeF (x : FVal) : FVal := if x = .nan then .finite 0 else x

/-- A decoded 3-D statistical volume: its shape tuple and its raveled
(C-order) data.  The decode contract guarantees `data.length = prod shape`
for any really-loaded volume; theorems state this as a hypothesis. -/
structure Volume where
  shape : List Nat
  data : List FVal
deriving DecidableEq, Repr

/-- `np.prod` over a shape tuple. -/
def prodL (l : List Nat) : Nat := l.foldr (· * ·) 1

/-- Number of `true` entries of a boolean vector (`selection.sum()`). -/
def countTrue : List Bool → Nat
  | [] => 0
  | true :: r => countTrue r + 1
  | false :: r => countTrue r

/-- numpy boolean indexing `xs[mask]` on flat vectors: keep the entries at
the positions where the mask is true.  (numpy requires the two lengths to be
equal; on unequal lengths this model truncates at the shorter, a case outside
every claim's hypotheses.) -/
def maskSel {α : Type} : List α → List Bool → List α
  | [], _ => []
  | _ :: _, [] => []
  | x :: xs, b :: m => if b then x :: maskSel xs m else maskSel xs m

/-- The linear positions at which a boolean vector is true, in increasing
order (`np.where(mask)[0]`). -/
def trueIdx : List Bool → List Nat
  | [] => []
  | true :: r => 0 :: (trueIdx r).map (· + 1)
  | false :: r => (trueIdx r).map (· + 1)

/-- The error taxonomy of the extraction engine.  All of these surface as
`ValueError` (or an uncaught `IndexError`/`NameError`) in Python; the
constructors record which raise site fired. -/
inductive Err where
  | shapeMismatch
  | countMismatch
  | configError
  | indexError
  | nameError
deriving DecidableEq, Repr

/-- I/O actions performed during an extraction, in order. -/
inductive Event where
  | loadMask
  | resetDir
  | makeDir
  | loadCope : Nat → Event
  | loadVarcope : Nat → Event
deriving DecidableEq, Repr

/-- The mask-owning part of the `Mvp` entity (`skbold/core/mvp.py`):
`mask_index` is the flat boolean selection, `mask_shape` the volume geometry,
`n_features` the recorded feature count. -/
structure Mvp where
  mask_index : List Bool
  mask_shape : List Nat
  n_features : Nat
deriving DecidableEq, Repr

/-- `tmp_idx[self.mask_index.reshape(self.mask_shape)] += new_idx` followed by
`tmp_idx.astype(bool).ravel()`, on flat vectors: position `p` of the result is
`new_idx[j]` when `p` is the `j`-th true position of the old mask, and `false`
elsewhere.  (`reshape` then `ravel` over `mask_shape` is the identity whenever
`mask_index.length = prodL mask_shape`, the built-state invariant assumed by
the theorems.) -/
def scatter : List Bool → List Bool → List Bool
  | [], _ => []
  | false :: ms, ns => false :: scatter ms ns
  | true :: ms, [] => false :: scatter ms []
  | true :: ms, n :: ns => n :: scatter ms ns

/-- `Mvp.update_mask` (`mvp.py` lines 88-97).  The size check compares
`new_idx.size` against the *current* selection sum; the raise precedes every
assignment, so the error branch returns no modified state.  Note the method
re-derives `mask_index` only: `n_features` is left untouched. -/
def Mvp.update_mask (m : Mvp) (new_idx : List Bool) : Except Err Mvp :=
  if new_idx.length ≠ countTrue m.mask_index then
    .error .shapeMismatch
  else
    .ok { m with mask_index := scatter m.mask_index new_idx }

/-- External collaborators (§6 of the spec): `epiMask` is `convert2epi`
applied to the mask volume, `mni` is `convert2mni` applied to a list of
volumes (order-preserving, one output per input). -/
structure Env where
  epiMask : Volume → Volume
  mni : List Volume → List Volume

/-- A trivially concrete environment for witnesses. -/
def idEnv : Env := ⟨id, id⟩

/-- Mask building shared by `Fsl2mvpWithin.glm2mvp` (lines 79-90) and
`Fsl2mvpBetween.glm2mvp` (lines 85-95): load the mask volume; when
`ref_space == 'epi'` and the volume is MNI-shaped `(91, 109, 91)`, transform
it to EPI space first (loading the transformed file is a second load);
then `mask_index = vol.get_data().ravel() > mask_threshold` and
`n_features = mask_index.sum()`. -/
def buildMaskState (env : Env) (refSpace : String) (t : ℚ) (mv : Volume) :
    List Event × Mvp :=
  let (evs, vol) :=
    if refSpace = "epi" ∧ mv.shape = [91, 109, 91] then
      ([Event.loadMask, Event.loadMask], env.epiMask mv)
    else ([Event.loadMask], mv)
  (evs, ⟨vol.data.map (fun x => fgtQ x t), vol.shape,
         countTrue (vol.data.map (fun x => fgtQ x t))⟩)

/-- The `mvp_data` directory housekeeping: if the directory exists and the
number of `*.feat` directories is at most the number of already-converted
headers, delete and recreate it; otherwise create it when missing. -/
def dirEvents (matDirExists : Bool) (nFeatDirs nConverted : Nat) : List Event :=
  if matDirExists ∧ nFeatDirs ≤ nConverted then [Event.resetDir]
  else if ¬matDirExists then [Event.makeDir]
  else []

/-- The I/O performed by both extractors before the reference-space check:
the mask load (with its possible EPI transform) and the directory
housekeeping. -/
def preEvents (env : Env) (refSpace : String) (t : ℚ) (maskVol : Option Volume)
    (matDirExists : Bool) (nFeatDirs nConverted : Nat) : List Event :=
  (match maskVol with
   | some mv => (buildMaskState env refSpace t mv).1
   | none => []) ++ dirEvents matDirExists nFeatDirs nConverted

/-- `sorted(remove_idx, reverse=True)`: insertion sort, descending. -/
def insertDesc (x : Nat) : List Nat → List Nat
  | [] => [x]
  | y :: ys => if y ≤ x then x :: y :: ys else y :: insertDesc x ys

/-- Sort a list of indices in descending order. -/
def sortDesc (l : List Nat) : List Nat := l.foldr insertDesc []

/-- `[xs.pop(idx) for idx in sorted(remove_idx, reverse=True)]`: remove the
given positions, popping the largest index first so earlier removals do not
shift later positions.  (`List.eraseIdx` ignores an out-of-range index, where
Python would raise; every claim supplies in-range indices.) -/
def applyRemove {α : Type} (xs : List α) (idxs : List Nat) : List α :=
  (sortDesc idxs).foldl (fun l i => l.eraseIdx i) xs

/-- `convert2mni` round trip shared by both extractors: extend the cope list
with the varcopes, transform everything, and split the result in half. -/
def mniSplit (env : Env) (cs vs : List Volume) : List Volume × List Volume :=
  let tf := env.mni (cs ++ vs)
  (tf.take (tf.length / 2), tf.drop (tf.length / 2))

/-- `np.unique` on label strings: the distinct values, sorted ascending.
Implemented as insertion sort followed by adjacent deduplication. -/
def insertStr (x : String) : List String → List String
  | [] => [x]
  | y :: ys => if x < y then x :: y :: ys else y :: insertStr x ys

/-- Insertion sort on strings, ascending. -/
def sortStr (l : List String) : List String := l.foldr insertStr []

/-- Remove adjacent duplicates of a sorted list. -/
def dedupAdj : List String → List String
  | [] => []
  | [x] => [x]
  | x :: y :: r => if x = y then dedupAdj (y :: r) else x :: dedupAdj (y :: r)

/-- `np.unique(labels)`: sorted distinct labels. -/
def npUnique (l : List String) : List String := dedupAdj (sortStr l)

/-- Position of a label in a list (0 when absent; `LabelEncoder.transform`
is never applied to an unseen label here, since it is fit on the same list). -/
def idxOf (s : String) : List String → Nat
  | [] => 0
  | x :: r => if x = s then 0 else idxOf s r + 1

/-- `LabelEncoder().fit_transform(labels)`: each label mapped to its index in
the sorted distinct class names. -/
def encodeLabels (labels : List String) : List Nat :=
  labels.map (fun s => idxOf s (npUnique labels))

/-- `self.n_inst = [np.sum(cls == cl) for cls in cl]`
(`fsl2mvp_within.py` line 61): note the comprehension ranges over the raw
label sequence `cl` itself — unlike the sibling lines for `class_idx` and
`trial_idx`, which range over `self.class_names` — so it yields one count per
*trial*, each entry counting the occurrences of that trial's own label.
(`contrast_labels` is taken with numpy elementwise-comparison semantics, as
required for the sibling `cl == cls` lines to be meaningful.) -/
def nInst (labels : List String) : List Nat :=
  labels.map (fun c => labels.countP (fun x => x == c))

/-- `self.class_idx = [cl == cls for cls in self.class_names]`. -/
def classIdx (labels : List String) : List (List Bool) :=
  (npUnique labels).map (fun cls => labels.map (fun x => x == cls))

/-- `self.trial_idx = [np.where(cl == cls)[0] for cls in self.class_names]`. -/
def trialIdx (labels : List String) : List (List Nat) :=
  (npUnique labels).map (fun cls => trueIdx (labels.map (fun x => x == cls)))

/-- Result entity of a within-run extraction (`Fsl2mvpWithin`): the mask
state, the label bookkeeping of `_update_metadata`, and the trial × feature
matrix `X` as a list of rows. -/
structure WithinOut where
  mvp : Mvp
  y : List Nat
  n_trials : Nat
  class_names : List String
  n_class : Nat
  n_inst : List Nat
  class_idx : List (List Bool)
  trial_idx : List (List Nat)
  X : List (List FVal)
deriving DecidableEq, Repr

/-- The beta-to-t loop of `Fsl2mvpWithin.glm2mvp` (lines 169-173): row `i`
is divided elementwise by the square root of the masked `i`-th variance
volume.  The Python loop ranges over the varcopes, so surplus trailing rows
stay untouched.  (A varcope list longer than the matrix would raise an
`IndexError` in Python; the model drops the surplus, a case outside every
claim's hypotheses.) -/
def beta2tRows : List (List FVal) → List Volume → List Bool → List (List FVal)
  | rows, [], _ => rows
  | [], _ :: _, _ => []
  | r :: rs, v :: vs, m =>
      List.zipWith divF r ((maskSel v.data m).map fsqrt) :: beta2tRows rs vs m

/-- The cope list actually iterated by `Fsl2mvpWithin.glm2mvp`: the sorted
glob result, transformed to MNI space when requested but not yet available,
then with the excluded positions popped in descending order.  (The inputs
stand for the `sort_numbered_list`-sorted glob results.) -/
def withinCopesRetained (env : Env) (refSpace : String) (regStd : Bool)
    (copes varcopes : List Volume) (removeIdx : List Nat) : List Volume :=
  let p := if refSpace = "mni" ∧ ¬regStd then mniSplit env copes varcopes
           else (copes, varcopes)
  applyRemove p.1 removeIdx

/-- The varcope list actually iterated by `Fsl2mvpWithin.glm2mvp` (same
pipeline as the copes, second half of a transform). -/
def withinVarcopesRetained (env : Env) (refSpace : String) (regStd : Bool)
    (copes varcopes : List Volume) (removeIdx : List Nat) : List Volume :=
  let p := if refSpace = "mni" ∧ ¬regStd then mniSplit env copes varcopes
           else (copes, varcopes)
  applyRemove p.2 removeIdx

/-- `Fsl2mvpWithin.glm2mvp` from the count check onwards: peek at the first
cope when no mask was supplied (an empty cope list makes `copes[0]` fail);
load every cope as a row of the matrix (each row of the pre-allocated
`np.zeros((n_stat, n_features))` is overwritten exactly once); take the
header from the last cope (`cope_img` is unbound when the loop never ran);
apply the optional beta-to-t conversion; zero the `nan` entries. -/
def withinAfterCount (env : Env) (refSpace : String) (t : ℚ) (beta2t : Bool)
    (maskVol : Option Volume) (evs0 : List Event) (labels : List String)
    (copes2 varcopes2 : List Volume) : List Event × Except Err WithinOut :=
  let peeked : Except Err (List Event × Mvp) :=
    match maskVol with
    | some mv => .ok ([], (buildMaskState env refSpace t mv).2)
    | none =>
        match copes2 with
        | [] => .error .indexError
        | c0 :: _ =>
            .ok ([Event.loadCope 0],
                 ⟨List.replicate c0.data.length true, c0.shape, c0.data.length⟩)
  match peeked with
  | .error e => (evs0, .error e)
  | .ok (peekEvs, mvp) =>
      let loadEvs := (List.range copes2.length).map Event.loadCope
      match copes2.getLast? with
      | none => (evs0 ++ peekEvs ++ loadEvs, .error .nameError)
      | some _ =>
          let X0 := copes2.map (fun c => maskSel c.data mvp.mask_index)
          let varEvs :=
            if beta2t then (List.range varcopes2.length).map Event.loadVarcope
            else []
          let X1 := if beta2t then beta2tRows X0 varcopes2 mvp.mask_index else X0
          let X2 := X1.map (fun r => r.map sanitizeF)
          (evs0 ++ peekEvs ++ loadEvs ++ varEvs,
           .ok { mvp := mvp
                 y := encodeLabels labels
                 n_trials := labels.length
                 class_names := npUnique labels
                 n_class := (npUnique labels).length
                 n_inst := nInst labels
                 class_idx := classIdx labels
                 trial_idx := trialIdx labels
                 X := X2 })

/-- `Fsl2mvpWithin.glm2mvp` (`fsl2mvp_within.py` lines 65-192), with I/O
abstracted into inputs and an event trace.  In source order: build the mask
from the supplied volume (if any), do the `mvp_data` directory housekeeping,
derive the label metadata, check the reference space, transform to MNI when
needed, pop the excluded positions, check the cope/label counts, then load
and assemble (`withinAfterCount`). -/
def glm2mvpWithin (env : Env) (refSpace : String) (t : ℚ) (beta2t : Bool)
    (maskVol : Option Volume) (matDirExists : Bool)
    (nFeatDirs nConverted : Nat) (labels : List String)
    (removeIdx : List Nat) (regStd : Bool)
    (copes varcopes : List Volume) : List Event × Except Err WithinOut :=
  let evs0 := preEvents env refSpace t maskVol matDirExists nFeatDirs nConverted
  if ¬(refSpace = "epi" ∨ refSpace = "mni") then (evs0, .error .configError)
  else if (withinCopesRetained env refSpace regStd copes varcopes
              removeIdx).length ≠ labels.length then
    (evs0, .error .countMismatch)
  else
    withinAfterCount env refSpace t beta2t maskVol evs0 labels
      (withinCopesRetained env refSpace regStd copes varcopes removeIdx)
      (withinVarcopesRetained env refSpace regStd copes varcopes removeIdx)

/-- Result entity of a between-run extraction (`Fsl2mvpBetween`): the flat
feature vector `X` with its parallel `contrast_id` and `voxel_idx` tags. -/
structure BetweenOut where
  mvp : Mvp
  y : Option ℚ
  n_contrast : Nat
  contrast_names : List String
  X : List FVal
  contrast_id : List Nat
  voxel_idx : List Nat
deriving DecidableEq, Repr

/-- numpy slice assignment `x[start : start + vals.length] = vals` on a flat
vector.  Lengths are always preserved; when the slice would run off the end
(numpy raises there) the surplus is truncated — a case outside every claim's
hypotheses. -/
def writeSlice (x : List FVal) (start : Nat) (vals : List FVal) : List FVal :=
  x.take start ++ vals.take (x.length - start) ++ x.drop (start + vals.length)

/-- `np.arange(np.prod(cope_shape, dtype=np.uint32), dtype=np.uint32)
.reshape(cope_shape).ravel()[mask_index]` (`fsl2mvp_between.py` line 172):
the product accumulates in `uint32`, hence the `% 2 ^ 32`; `reshape` followed
by `ravel` is the identity; the boolean mask then selects the linear voxel
positions. -/
def voxOf (c : Volume) (mask : List Bool) : List Nat :=
  maskSel (List.range (prodL c.shape % 2 ^ 32)) mask

/-- The cope/varcope loop of `Fsl2mvpBetween.glm2mvp` (lines 167-181), one
step per `zip(copes, varcopes)` pair: mask the cope data, compute the masked
voxel indices, optionally divide by the square root of the masked variance,
write the vector into the slice `[i*n_features, (i+1)*n_features)` of `X`,
and append the per-feature contrast tag `i` and the voxel indices.
(`contrast_id` is built with numpy value-based promotion: the `uint8` ones
array times the Python int `i` keeps the value `i` exactly, promoting the
dtype when `i` does not fit, so no wrap-around is modelled.) -/
def betweenLoop (mask : List Bool) (nf : Nat) (beta2t : Bool) :
    Nat → List FVal → List Nat → List Nat → List Event →
    List (Volume × Volume) → List FVal × List Nat × List Nat × List Event
  | _, x, cid, vidx, evs, [] => (x, cid, vidx, evs)
  | i, x, cid, vidx, evs, (c, v) :: rest =>
      let copedat0 := maskSel c.data mask
      let copedat :=
        if beta2t then
          List.zipWith divF copedat0 ((maskSel v.data mask).map fsqrt)
        else copedat0
      let evs' := evs ++ [Event.loadCope i] ++
        (if beta2t then [Event.loadVarcope i] else [])
      betweenLoop mask nf beta2t (i + 1) (writeSlice x (i * nf) copedat)
        (cid ++ List.replicate nf i) (vidx ++ voxOf c mask) evs' rest

/-- The retained cope and varcope lists iterated by `Fsl2mvpBetween.glm2mvp`:
unlike the within variant, the excluded positions are popped *before* any
MNI transform. -/
def betweenRetained (env : Env) (refSpace : String) (regStd : Bool)
    (copes varcopes : List Volume) (removeIdx : List Nat) :
    List Volume × List Volume :=
  let copes1 := applyRemove copes removeIdx
  let varcopes1 := applyRemove varcopes removeIdx
  if refSpace = "mni" ∧ ¬regStd then mniSplit env copes1 varcopes1
  else (copes1, varcopes1)

/-- `Fsl2mvpBetween.glm2mvp` from the peek onwards: peek at the first cope
when no mask was supplied, pre-allocate
`np.zeros(n_features * len(contrast_labels))`, run the pair loop, zero the
`nan` entries, and take the header from the last loaded cope (`cope_img` is
unbound when the loop never ran). -/
def betweenAfterCheck (env : Env) (refSpace : String) (t : ℚ) (beta2t : Bool)
    (maskVol : Option Volume) (evs0 : List Event) (labels : List String)
    (outcome : Option ℚ) (copes2 varcopes2 : List Volume) :
    List Event × Except Err BetweenOut :=
  let peeked : Except Err (List Event × Mvp) :=
    match maskVol with
    | some mv => .ok ([], (buildMaskState env refSpace t mv).2)
    | none =>
        match copes2 with
        | [] => .error .indexError
        | c0 :: _ =>
            .ok ([Event.loadCope 0],
                 ⟨List.replicate c0.data.length true, c0.shape,
                  c0.data.length⟩)
  match peeked with
  | .error e => (evs0, .error e)
  | .ok (peekEvs, mvp) =>
      let nf := mvp.n_features
      let r := betweenLoop mvp.mask_index nf beta2t 0
        (List.replicate (nf * labels.length) (FVal.finite 0)) [] [] []
        (copes2.zip varcopes2)
      let X2 := r.1.map sanitizeF
      match (copes2.zip varcopes2).getLast? with
      | none => (evs0 ++ peekEvs ++ r.2.2.2, .error .nameError)
      | some _ =>
          (evs0 ++ peekEvs ++ r.2.2.2,
           .ok { mvp := mvp
                 y := outcome
                 n_contrast := labels.length
                 contrast_names := npUnique labels
                 X := X2
                 contrast_id := r.2.1
                 voxel_idx := r.2.2.1 })

/-- `Fsl2mvpBetween.glm2mvp` (`fsl2mvp_between.py` lines 70-207), with I/O
abstracted into inputs and an event trace.  In source order: build the mask,
directory housekeeping, labels and the optional scalar outcome, metadata,
reference-space check, pop the excluded positions, transform to MNI when
needed, then peek, load and assemble (`betweenAfterCheck`).  There is no
cope/label count check. -/
def glm2mvpBetween (env : Env) (refSpace : String) (t : ℚ) (beta2t : Bool)
    (maskVol : Option Volume) (matDirExists : Bool)
    (nFeatDirs nConverted : Nat) (labels : List String) (outcome : Option ℚ)
    (removeIdx : List Nat) (regStd : Bool)
    (copes varcopes : List Volume) : List Event × Except Err BetweenOut :=
  let evs0 := preEvents env refSpace t maskVol matDirExists nFeatDirs nConverted
  if ¬(refSpace = "epi" ∨ refSpace = "mni") then (evs0, .error .configError)
  else
    betweenAfterCheck env refSpace t beta2t maskVol evs0 labels outcome
      (betweenRetained env refSpace regStd copes varcopes removeIdx).1
      (betweenRetained env refSpace regStd copes varcopes removeIdx).2

end Skbold

deriving instance DecidableEq for Except

namespace Skbold

/-! ### Concrete fixtures used by witnesses and counterexamples -/

/-- A 1-voxel mask volume with value 1 (selects the voxel at threshold 0). -/
def maskVol1 : Volume := ⟨[1], [FVal.finite 1]⟩

/-- A 1-voxel effect volume with value 4. -/
def copeVol4 : Volume := ⟨[1], [FVal.finite 4]⟩

/-- A 1-voxel variance volume with value 4. -/
def varVol4 : Volume := ⟨[1], [FVal.finite 4]⟩

/-- A 1-voxel variance volume with value 0. -/
def varVol0 : Volume := ⟨[1], [FVal.finite 0]⟩

/-- A 10-voxel volume of ones (used both as an all-selecting mask and as
condition data). -/
def vol10 : Volume := ⟨[10], List.replicate 10 (FVal.finite 1)⟩

/-- A 5-voxel volume of ones. -/
def vol5 : Volume := ⟨[5], List.replicate 5 (FVal.finite 1)⟩

/-! ### Lemmas about `scatter` and `countTrue` -/

theorem scatter_length (ms ns : List Bool) : (scatter ms ns).length = ms.length := by
  induction ms generalizing ns with
  | nil => rfl
  | cons b ms ih =>
      cases b with
      | false => simpa [scatter] using ih ns
      | true => cases ns with
          | nil => simpa [scatter] using ih []
          | cons n ns => simpa [scatter] using ih ns

theorem scatter_getD_true (ms ns : List Bool) (i : Nat)
    (h : (scatter ms ns).getD i false = true) : ms.getD i false = true := by
  induction ms generalizing ns i with
  | nil => simpa [scatter] using h
  | cons b ms ih =>
      cases b with
      | false =>
          cases i with
          | zero => simpa [scatter] using h
          | succ i => exact ih ns i (by simpa [scatter, List.getD] using h)
      | true =>
          cases ns with
          | nil =>
              cases i with
              | zero => simpa [scatter] using h
              | succ i =>
                  have := ih [] i (by simpa [scatter, List.getD] using h)
                  simpa [List.getD] using this
          | cons n ns =>
              cases i with
              | zero => rfl
              | succ i =>
                  have := ih ns i (by simpa [scatter, List.getD] using h)
                  simpa [List.getD] using this

theorem countTrue_cons (b : Bool) (l : List Bool) :
    countTrue (b :: l) = countTrue l + (if b then 1 else 0) := by
  cases b <;> simp [countTrue]

theorem countTrue_scatter_le (ms ns : List Bool) :
    countTrue (scatter ms ns) ≤ countTrue ms := by
  induction ms generalizing ns with
  | nil => simp [scatter]
  | cons b ms ih =>
      cases b with
      | false => simpa [scatter, countTrue] using ih ns
      | true =>
          cases ns with
          | nil =>
              calc countTrue (false :: scatter ms [])
                  = countTrue (scatter ms []) := by simp [countTrue]
                _ ≤ countTrue ms := ih []
                _ ≤ countTrue (true :: ms) := by simp [countTrue]
          | cons n ns =>
              have h := ih ns
              cases n with
              | false =>
                  simp only [scatter, countTrue]
                  exact Nat.le_succ_of_le h
              | true =>
                  simp only [scatter, countTrue]
                  exact Nat.succ_le_succ h

theorem scatter_replicate_true (ms : List Bool) :
    scatter ms (List.replicate (countTrue ms) true) = ms := by
  induction ms with
  | nil => rfl
  | cons b ms ih =>
      cases b with
      | false => simpa [scatter, countTrue] using ih
      | true => simpa [scatter, countTrue, List.replicate] using ih

theorem countTrue_replicate_true (n : Nat) :
    countTrue (List.replicate n true) = n := by
  induction n with
  | zero => rfl
  | succ n ih => simpa [List.replicate, countTrue] using ih

/-! ### Claims C2 and C3 (`Mvp.update_mask`) -/

/-- C2: on a built `Mvp` (where `n_features = mask_index.sum()` and
`mask_index.size = prod(mask_shape)`), `update_mask` with an index whose
element count differs from `n_features` raises the `ShapeMismatch` error —
and since the raise precedes every assignment, the model's error branch
carries no modified state, so `mask_index` and `n_features` are left exactly
as they were — while an index with exactly `n_features` elements raises no
such error. -/
theorem update_mask_size_check (m : Mvp) (nidx : List Bool)
    (hinv : m.n_features = countTrue m.mask_index)
    (hshape : m.mask_index.length = prodL m.mask_shape) :
    (nidx.length ≠ m.n_features → m.update_mask nidx = .error .shapeMismatch) ∧
    (nidx.length = m.n_features → ∃ m', m.update_mask nidx = .ok m') := by
  constructor
  · intro hne
    simp [Mvp.update_mask, hinv ▸ hne]
  · intro heq
    refine ⟨{ m with mask_index := scatter m.mask_index nidx }, ?_⟩
    simp [Mvp.update_mask, hinv ▸ heq]

/-- Witness for C2 at a concrete built state: a 1-element index on a
2-feature selection errors, a 2-element index does not. -/
theorem update_mask_size_check_witness :
    (Mvp.update_mask ⟨[true, true, false], [3], 2⟩ [true] =
      .error .shapeMismatch) ∧
    ∃ m', Mvp.update_mask ⟨[true, true, false], [3], 2⟩ [true, false] =
      .ok m' :=
  ⟨(update_mask_size_check ⟨[true, true, false], [3], 2⟩ [true]
      (by decide) (by decide)).1 (by decide),
   (update_mask_size_check ⟨[true, true, false], [3], 2⟩ [true, false]
      (by decide) (by decide)).2 (by decide)⟩

/-- C3: on a built `Mvp`, `update_mask` with a validly-sized boolean index
succeeds, can only shrink the selection (the new selection sum is at most the
old one and the new selected set is a subset of the old one), leaves
`n_features` at its pre-call value, and an all-true index leaves the
selection unchanged. -/
theorem update_mask_shrinking (m : Mvp) (nidx : List Bool)
    (hinv : m.n_features = countTrue m.mask_index)
    (hshape : m.mask_index.length = prodL m.mask_shape)
    (hlen : nidx.length = m.n_features) :
    ∃ m', m.update_mask nidx = .ok m' ∧
      countTrue m'.mask_index ≤ countTrue m.mask_index ∧
      m'.n_features = m.n_features ∧
      (∀ i, m'.mask_index.getD i false = true →
        m.mask_index.getD i false = true) ∧
      (nidx = List.replicate m.n_features true →
        m'.mask_index = m.mask_index) := by
  refine ⟨{ m with mask_index := scatter m.mask_index nidx }, ?_, ?_, rfl, ?_, ?_⟩
  · simp [Mvp.update_mask, hinv ▸ hlen]
  · exact countTrue_scatter_le m.mask_index nidx
  · exact fun i => scatter_getD_true m.mask_index nidx i
  · intro hrep
    simpa using hrep ▸ (hinv ▸ scatter_replicate_true m.mask_index)

/-- Witness for C3 at a concrete built state: narrowing `[true, true]` by
`[true, false]` succeeds with the asserted shrinking properties. -/
theorem update_mask_shrinking_witness :
    ∃ m', Mvp.update_mask ⟨[true, true], [2], 2⟩ [true, false] = .ok m' ∧
      countTrue m'.mask_index ≤ countTrue [true, true] ∧
      m'.n_features = (Mvp.mk [true, true] [2] 2).n_features ∧
      (∀ i, m'.mask_index.getD i false = true →
        (Mvp.mk [true, true] [2] 2).mask_index.getD i false = true) ∧
      ([true, false] = List.replicate 2 true →
        m'.mask_index = [true, true]) :=
  update_mask_shrinking ⟨[true, true], [2], 2⟩ [true, false]
    (by decide) (by decide) (by decide)

/-! ### Claim C1 (the built-state invariant and `update_mask`) -/

/-- C1 counterexample: on the built state with selection `[true, true]`
(both invariants hold), a valid narrowing to `[true, false]` succeeds but
leaves `n_features` at `2` while the new selection sums to `1`: the claimed
re-established invariant `n_features = mask_index.sum()` fails. -/
theorem update_mask_stale_n_features :
    Mvp.update_mask ⟨[true, true], [2], 2⟩ [true, false] =
      .ok ⟨[true, false], [2], 2⟩ ∧
    (Mvp.mk [true, false] [2] 2).n_features ≠
      countTrue (Mvp.mk [true, false] [2] 2).mask_index :=
  ⟨rfl, by decide⟩

/-! ### Lemmas about the shared pipeline stages -/

theorem buildMaskState_no91 (env : Env) (refSpace : String) (t : ℚ)
    (mv : Volume) (h : ¬(refSpace = "epi" ∧ mv.shape = [91, 109, 91])) :
    buildMaskState env refSpace t mv =
      ([Event.loadMask],
       ⟨mv.data.map (fun x => fgtQ x t), mv.shape,
        countTrue (mv.data.map (fun x => fgtQ x t))⟩) := by
  simp [buildMaskState, h]

theorem buildMaskState_inv (env : Env) (refSpace : String) (t : ℚ)
    (mv : Volume) (hmv : mv.data.length = prodL mv.shape)
    (henv : (env.epiMask mv).data.length = prodL (env.epiMask mv).shape) :
    ((buildMaskState env refSpace t mv).2.mask_index.length =
       prodL (buildMaskState env refSpace t mv).2.mask_shape) ∧
    ((buildMaskState env refSpace t mv).2.n_features =
       countTrue (buildMaskState env refSpace t mv).2.mask_index) := by
  by_cases h : refSpace = "epi" ∧ mv.shape = [91, 109, 91]
  · simp [buildMaskState, h, henv]
  · simp [buildMaskState, h, hmv]

theorem preEvents_shape (env : Env) (refSpace : String) (t : ℚ)
    (maskVol : Option Volume) (md : Bool) (nfd nc : Nat) :
    ∀ e ∈ preEvents env refSpace t maskVol md nfd nc,
      e = Event.loadMask ∨ e = Event.resetDir ∨ e = Event.makeDir := by
  intro e he
  unfold preEvents at he
  rcases List.mem_append.1 he with h | h
  · cases maskVol with
    | none => simp at h
    | some mv =>
        by_cases hc : refSpace = "epi" ∧ mv.shape = [91, 109, 91]
        · simp [buildMaskState, hc] at h
          simp [h]
        · simp [buildMaskState, hc] at h
          simp [h]
  · unfold dirEvents at h
    split at h
    · simp at h
      simp [h]
    · split at h
      · simp at h
        simp [h]
      · simp at h

theorem preEvents_no_load (env : Env) (refSpace : String) (t : ℚ)
    (maskVol : Option Volume) (md : Bool) (nfd nc : Nat) (i : Nat) :
    Event.loadCope i ∉ preEvents env refSpace t maskVol md nfd nc ∧
    Event.loadVarcope i ∉ preEvents env refSpace t maskVol md nfd nc := by
  constructor <;> intro hmem <;>
    rcases preEvents_shape env refSpace t maskVol md nfd nc _ hmem
      with h | h | h <;> simp at h

theorem preEvents_some_head (env : Env) (refSpace : String) (t : ℚ)
    (mv : Volume) (md : Bool) (nfd nc : Nat) :
    Event.loadMask ∈ preEvents env refSpace t (some mv) md nfd nc := by
  unfold preEvents
  by_cases hc : refSpace = "epi" ∧ mv.shape = [91, 109, 91] <;>
    simp [buildMaskState, hc]

/-- Whenever `Fsl2mvpWithin.glm2mvp` is run with a supplied mask volume and
succeeds, the mask state of the result is exactly the built mask state. -/
theorem within_ok_mask (env : Env) (refSpace : String) (t : ℚ) (b2t : Bool)
    (mv : Volume) (md : Bool) (nfd nc : Nat) (labels : List String)
    (ri : List Nat) (rstd : Bool) (cs vs : List Volume) (out : WithinOut)
    (h : (glm2mvpWithin env refSpace t b2t (some mv) md nfd nc labels ri rstd
            cs vs).2 = .ok out) :
    out.mvp = (buildMaskState env refSpace t mv).2 := by
  unfold glm2mvpWithin at h
  split at h
  · simp at h
  · split at h
    · simp at h
    · rw [withinAfterCount] at h
      cases hl : (withinCopesRetained env refSpace rstd cs vs ri).getLast? with
      | none => rw [hl] at h; simp at h
      | some c =>
          rw [hl] at h
          simp only [Except.ok.injEq] at h
          rw [← h]

/-- `withinAfterCount` never produces the count-mismatch error: its only
error exits are the empty-cope peek (`IndexError`) and the unbound
`cope_img` (`NameError`). -/
theorem withinAfterCount_ne_countMismatch (env : Env) (refSpace : String)
    (t : ℚ) (b2t : Bool) (maskVol : Option Volume) (evs0 : List Event)
    (labels : List String) (copes2 varcopes2 : List Volume) :
    (withinAfterCount env refSpace t b2t maskVol evs0 labels copes2
        varcopes2).2 ≠ .error .countMismatch := by
  unfold withinAfterCount
  cases maskVol with
  | none =>
      cases copes2 with
      | nil => simp
      | cons c0 rest => cases hl : (c0 :: rest).getLast? <;> simp [hl]
  | some mv => cases hl : copes2.getLast? <;> simp [hl]

/-! ### Claim C6 (within-run cope/label count check) -/

/-- C6: in the within-run extraction with a valid reference space, whenever
the retained cope count differs from the label count the `CountMismatch`
error is raised, no condition volume has been read (so the matrix was never
allocated or filled: the error result carries no `X`), and whenever the
counts agree that error is never raised. -/
theorem within_count_check (env : Env) (refSpace : String) (t : ℚ)
    (b2t : Bool) (maskVol : Option Volume) (md : Bool) (nfd nc : Nat)
    (labels : List String) (ri : List Nat) (rstd : Bool)
    (cs vs : List Volume) (hr : refSpace = "epi" ∨ refSpace = "mni") :
    ((withinCopesRetained env refSpace rstd cs vs ri).length ≠ labels.length →
      (glm2mvpWithin env refSpace t b2t maskVol md nfd nc labels ri rstd
          cs vs) =
        (preEvents env refSpace t maskVol md nfd nc,
         .error .countMismatch) ∧
      ∀ i, Event.loadCope i ∉
        (glm2mvpWithin env refSpace t b2t maskVol md nfd nc labels ri rstd
            cs vs).1) ∧
    ((withinCopesRetained env refSpace rstd cs vs ri).length = labels.length →
      (glm2mvpWithin env refSpace t b2t maskVol md nfd nc labels ri rstd
          cs vs).2 ≠ .error .countMismatch) := by
  constructor
  · intro hne
    have hres : (glm2mvpWithin env refSpace t b2t maskVol md nfd nc labels ri
        rstd cs vs) =
        (preEvents env refSpace t maskVol md nfd nc, .error .countMismatch) := by
      unfold glm2mvpWithin
      rw [if_neg (not_not_intro hr), if_pos hne]
    refine ⟨hres, fun i => ?_⟩
    rw [hres]
    exact (preEvents_no_load env refSpace t maskVol md nfd nc i).1
  · intro heq
    unfold glm2mvpWithin
    rw [if_neg (not_not_intro hr), if_neg (not_not_intro heq)]
    exact withinAfterCount_ne_countMismatch env refSpace t b2t maskVol _
      labels _ _

/-- Witness for C6: with one label and no copes the count check fires with no
volume read; with one label and one cope it does not fire. -/
theorem within_count_check_witness :
    ((glm2mvpWithin idEnv "epi" 0 true (some maskVol1) true 0 0 ["A"] [] true
        [] []) =
      (preEvents idEnv "epi" 0 (some maskVol1) true 0 0,
       .error .countMismatch) ∧
      ∀ i, Event.loadCope i ∉
        (glm2mvpWithin idEnv "epi" 0 true (some maskVol1) true 0 0 ["A"] []
            true [] []).1) ∧
    ((glm2mvpWithin idEnv "epi" 0 true (some maskVol1) true 0 0 ["A"] [] true
        [copeVol4] [varVol4]).2 ≠ .error .countMismatch) :=
  ⟨(within_count_check idEnv "epi" 0 true (some maskVol1) true 0 0 ["A"] []
      true [] [] (Or.inl rfl)).1 (by decide),
   (within_count_check idEnv "epi" 0 true (some maskVol1) true 0 0 ["A"] []
      true [copeVol4] [varVol4] (Or.inl rfl)).2 (by decide)⟩

/-! ### Claim C9 (reference-space validation) -/

/-- C9 counterexample: calling the within extractor with the unsupported
reference-space tag `"native"` and a supplied mask volume raises the
configuration error only *after* I/O has happened — the trace already
contains the mask load and the output-directory creation — refuting the
claim that the error precedes any I/O. -/
theorem invalid_refspace_after_io :
    (glm2mvpWithin idEnv "native" 0 true (some maskVol1) false 0 0 ["A"] []
        true [copeVol4] [varVol0]) =
      ([Event.loadMask, Event.makeDir], .error .configError) ∧
    Event.loadMask ∈
      (glm2mvpWithin idEnv "native" 0 true (some maskVol1) false 0 0 ["A"] []
          true [copeVol4] [varVol0]).1 ∧
    Event.makeDir ∈
      (glm2mvpWithin idEnv "native" 0 true (some maskVol1) false 0 0 ["A"] []
          true [copeVol4] [varVol0]).1 := by
  decide

/-- C9 amended: any reference-space tag other than `'epi'`/`'mni'` makes both
extractors fail with the configuration error before any condition volume is
read — but after the mask (when supplied) has been loaded and the
output-directory housekeeping has run: the trace is exactly those
pre-check I/O events. -/
theorem invalid_refspace_config_error (env : Env) (refSpace : String) (t : ℚ)
    (b2t : Bool) (maskVol : Option Volume) (md : Bool) (nfd nc : Nat)
    (labels : List String) (outcome : Option ℚ) (ri : List Nat) (rstd : Bool)
    (cs vs : List Volume)
    (hr : ¬(refSpace = "epi" ∨ refSpace = "mni")) :
    (glm2mvpWithin env refSpace t b2t maskVol md nfd nc labels ri rstd
        cs vs) =
      (preEvents env refSpace t maskVol md nfd nc, .error .configError) ∧
    (glm2mvpBetween env refSpace t b2t maskVol md nfd nc labels outcome ri
        rstd cs vs) =
      (preEvents env refSpace t maskVol md nfd nc, .error .configError) ∧
    (∀ i, Event.loadCope i ∉ preEvents env refSpace t maskVol md nfd nc ∧
      Event.loadVarcope i ∉ preEvents env refSpace t maskVol md nfd nc) ∧
    (∀ mv, maskVol = some mv →
      Event.loadMask ∈ preEvents env refSpace t maskVol md nfd nc) := by
  refine ⟨?_, ?_, preEvents_no_load env refSpace t maskVol md nfd nc, ?_⟩
  · unfold glm2mvpWithin
    rw [if_pos hr]
  · unfold glm2mvpBetween
    rw [if_pos hr]
  · intro mv hmv
    subst hmv
    exact preEvents_some_head env refSpace t mv md nfd nc

/-- Witness for C9 amended, at the concrete tag `"native"`. -/
theorem invalid_refspace_config_error_witness :
    (glm2mvpWithin idEnv "native" 0 false none true 1 0 ["A"] [] true [] []) =
      (preEvents idEnv "native" 0 none true 1 0, .error .configError) ∧
    (glm2mvpBetween idEnv "native" 0 false none true 1 0 ["A"] none [] true
        [] []) =
      (preEvents idEnv "native" 0 none true 1 0, .error .configError) ∧
    (∀ i, Event.loadCope i ∉ preEvents idEnv "native" 0 none true 1 0 ∧
      Event.loadVarcope i ∉ preEvents idEnv "native" 0 none true 1 0) ∧
    (∀ mv, (none : Option Volume) = some mv →
      Event.loadMask ∈ preEvents idEnv "native" 0 none true 1 0) :=
  invalid_refspace_config_error idEnv "native" 0 false none true 1 0 ["A"]
    none [] true [] [] (by decide)

/-- Whenever `Fsl2mvpBetween.glm2mvp` is run with a supplied mask volume and
succeeds, the mask state of the result is exactly the built mask state. -/
theorem between_ok_mask (env : Env) (refSpace : String) (t : ℚ) (b2t : Bool)
    (mv : Volume) (md : Bool) (nfd nc : Nat) (labels : List String)
    (outcome : Option ℚ) (ri : List Nat) (rstd : Bool) (cs vs : List Volume)
    (out : BetweenOut)
    (h : (glm2mvpBetween env refSpace t b2t (some mv) md nfd nc labels
            outcome ri rstd cs vs).2 = .ok out) :
    out.mvp = (buildMaskState env refSpace t mv).2 := by
  unfold glm2mvpBetween at h
  split at h
  · simp at h
  · rw [betweenAfterCheck] at h
    cases hl : ((betweenRetained env refSpace rstd cs vs ri).1.zip
        (betweenRetained env refSpace rstd cs vs ri).2).getLast? with
    | none => rw [hl] at h; simp at h
    | some c =>
        rw [hl] at h
        simp only [Except.ok.injEq] at h
        rw [← h]

/-! ### Claim C4 (threshold comparison is strict) -/

/-- C4: for every supplied mask volume and threshold (outside the EPI
re-registration special case, where the transformed rather than the supplied
volume is loaded), a successful extraction of either variant has built
`selection = raveled mask values > threshold` — the comparison is strict, so
a voxel exactly at the threshold is excluded — and `n_features` is the
number of true entries of that selection. -/
theorem mask_threshold_strict (env : Env) (refSpace : String) (t : ℚ)
    (b2t : Bool) (mv : Volume) (md : Bool) (nfd nc : Nat)
    (labels : List String) (outcome : Option ℚ) (ri : List Nat) (rstd : Bool)
    (cs vs cs2 vs2 : List Volume) (outW : WithinOut) (outB : BetweenOut)
    (h91 : ¬(refSpace = "epi" ∧ mv.shape = [91, 109, 91]))
    (hw : (glm2mvpWithin env refSpace t b2t (some mv) md nfd nc labels ri
            rstd cs vs).2 = .ok outW)
    (hb : (glm2mvpBetween env refSpace t b2t (some mv) md nfd nc labels
            outcome ri rstd cs2 vs2).2 = .ok outB) :
    outW.mvp.mask_index = mv.data.map (fun x => fgtQ x t) ∧
    outW.mvp.n_features = countTrue (mv.data.map (fun x => fgtQ x t)) ∧
    outB.mvp.mask_index = mv.data.map (fun x => fgtQ x t) ∧
    outB.mvp.n_features = countTrue (mv.data.map (fun x => fgtQ x t)) := by
  have hwm := within_ok_mask env refSpace t b2t mv md nfd nc labels ri rstd
    cs vs outW hw
  have hbm := between_ok_mask env refSpace t b2t mv md nfd nc labels outcome
    ri rstd cs2 vs2 outB hb
  rw [buildMaskState_no91 env refSpace t mv h91] at hwm hbm
  rw [hwm, hbm]
  exact ⟨rfl, rfl, rfl, rfl⟩

/-- Witness for C4, on a 1-voxel mask with value 1 and threshold 1: the voxel
sits exactly at the threshold and is excluded (`1 > 1` is false), giving an
empty selection and `n_features = 0`. -/
theorem mask_threshold_strict_witness :
    (Skbold.WithinOut.mvp (WithinOut.mk ⟨[false], [1], 0⟩ [0] 1 ["A"] 1 [1]
        [[true]] [[0]] [[]])).mask_index =
      maskVol1.data.map (fun x => fgtQ x 1) ∧
    (Skbold.WithinOut.mvp (WithinOut.mk ⟨[false], [1], 0⟩ [0] 1 ["A"] 1 [1]
        [[true]] [[0]] [[]])).n_features =
      countTrue (maskVol1.data.map (fun x => fgtQ x 1)) ∧
    (Skbold.BetweenOut.mvp (BetweenOut.mk ⟨[false], [1], 0⟩ none 1 ["A"] []
        [] [])).mask_index = maskVol1.data.map (fun x => fgtQ x 1) ∧
    (Skbold.BetweenOut.mvp (BetweenOut.mk ⟨[false], [1], 0⟩ none 1 ["A"] []
        [] [])).n_features =
      countTrue (maskVol1.data.map (fun x => fgtQ x 1)) :=
  mask_threshold_strict idEnv "epi" 1 true maskVol1 true 0 0 ["A"] none []
    true [copeVol4] [varVol4] [copeVol4] [varVol4] _ _ (by decide)
    (by decide) (by decide)

/-! ### Claim C1 amended (the built-state invariant and what `update_mask`
preserves of it) -/

/-- C1 amended: after a successful within-run extraction with a supplied mask
volume (the decode contract giving `data.length = prod shape` for the loaded
volumes), the built state satisfies `selection.size = prod(shape)` and
`n_features = selection.sum()`.  A successful `update_mask` preserves the
selection size (hence `selection.size = prod(shape)`) but does *not*
re-derive `n_features`: it keeps its pre-call value, so when the pre-call
invariant held the new selection sum is merely bounded by `n_features`. -/
theorem mask_invariants (env : Env) (refSpace : String) (t : ℚ) (b2t : Bool)
    (mv : Volume) (md : Bool) (nfd nc : Nat) (labels : List String)
    (ri : List Nat) (rstd : Bool) (cs vs : List Volume) (out : WithinOut)
    (m m' : Mvp) (nidx : List Bool)
    (hok : (glm2mvpWithin env refSpace t b2t (some mv) md nfd nc labels ri
        rstd cs vs).2 = .ok out)
    (hmv : mv.data.length = prodL mv.shape)
    (henv : (env.epiMask mv).data.length = prodL (env.epiMask mv).shape)
    (hupd : m.update_mask nidx = .ok m') :
    (out.mvp.mask_index.length = prodL out.mvp.mask_shape ∧
     out.mvp.n_features = countTrue out.mvp.mask_index) ∧
    (m'.mask_index.length = m.mask_index.length ∧
     m'.n_features = m.n_features ∧
     (m.n_features = countTrue m.mask_index →
       countTrue m'.mask_index ≤ m'.n_features)) := by
  constructor
  · rw [within_ok_mask env refSpace t b2t mv md nfd nc labels ri rstd cs vs
        out hok]
    exact buildMaskState_inv env refSpace t mv hmv henv
  · unfold Mvp.update_mask at hupd
    split at hupd
    · simp at hupd
    · simp only [Except.ok.injEq] at hupd
      rw [← hupd]
      refine ⟨scatter_length m.mask_index nidx, rfl, fun hinv => ?_⟩
      calc countTrue (scatter m.mask_index nidx)
          ≤ countTrue m.mask_index := countTrue_scatter_le m.mask_index nidx
        _ = m.n_features := hinv.symm

/-- The output entity of the 1-voxel within-run extraction used by the C1
witness. -/
def w1out : WithinOut :=
  ⟨⟨[true], [1], 1⟩, [0], 1, ["A"], 1, [1], [[true]], [[0]],
   [[FVal.finite 2]]⟩

/-- Witness for C1 amended, on a 1-voxel extraction and the concrete
narrowing of `[true, true]` by `[true, false]`. -/
theorem mask_invariants_witness :
    ((w1out.mvp.mask_index.length = prodL w1out.mvp.mask_shape ∧
      w1out.mvp.n_features = countTrue w1out.mvp.mask_index)) ∧
    ((Mvp.mk [true, false] [2] 2).mask_index.length =
       (Mvp.mk [true, true] [2] 2).mask_index.length ∧
     (Mvp.mk [true, false] [2] 2).n_features =
       (Mvp.mk [true, true] [2] 2).n_features ∧
     ((Mvp.mk [true, true] [2] 2).n_features =
        countTrue (Mvp.mk [true, true] [2] 2).mask_index →
       countTrue (Mvp.mk [true, false] [2] 2).mask_index ≤
         (Mvp.mk [true, false] [2] 2).n_features)) :=
  mask_invariants idEnv "epi" 0 true maskVol1 true 0 0 ["A"] [] true
    [copeVol4] [varVol4] w1out ⟨[true, true], [2], 2⟩
    ⟨[true, false], [2], 2⟩ [true, false]
    (by with_unfolding_all decide) (by decide) (by decide) (by decide)

/-! ### Claim C5 (beta-to-t conversion and sanitation) -/

/-- C5 counterexample: with beta-to-t conversion enabled, effect `[4]` with
variance `[0]` is stored as `[inf]`, not `[0]`: `4 / sqrt(0) = +inf` and the
sanitation step `mvp_data[np.isnan(mvp_data)] = 0` replaces only `nan`, so
the infinity survives into `X`, refuting "never inf". -/
theorem beta2t_zero_variance_inf :
    ((glm2mvpWithin idEnv "epi" 0 true (some maskVol1) true 0 0 ["A"] [] true
        [copeVol4] [varVol0]).2.toOption.map (fun o => o.X)) =
      some [[FVal.inf]] ∧
    FVal.inf ≠ FVal.finite 0 := by
  with_unfolding_all decide

/-- C5 amended: the conversion divides each effect vector elementwise by the
square root of its matched variance vector, and the sanitation pass replaces
exactly the `nan` entries by `0` — non-finite values that are infinities are
*not* replaced.  Concretely, effect `[4]` with variance `[4]` is stored as
`[2]`, while effect `[4]` with variance `[0]` is stored as `[inf]`. -/
theorem beta2t_sanitation (x : FVal) (hx : x ≠ FVal.nan) :
    sanitizeF x = x ∧
    sanitizeF FVal.nan = FVal.finite 0 ∧
    divF (FVal.finite 4) (fsqrt (FVal.finite 4)) = FVal.finite 2 ∧
    ((glm2mvpWithin idEnv "epi" 0 true (some maskVol1) true 0 0 ["A"] [] true
        [copeVol4] [varVol4]).2.toOption.map (fun o => o.X)) =
      some [[FVal.finite 2]] ∧
    ((glm2mvpWithin idEnv "epi" 0 true (some maskVol1) true 0 0 ["A"] [] true
        [copeVol4] [varVol0]).2.toOption.map (fun o => o.X)) =
      some [[FVal.inf]] := by
  refine ⟨?_, by decide, by with_unfolding_all decide,
    by with_unfolding_all decide, by with_unfolding_all decide⟩
  simp [sanitizeF, hx]

/-- Witness for C5 amended at `x = inf`: an infinity passes through the
sanitation untouched. -/
theorem beta2t_sanitation_witness :
    sanitizeF FVal.inf = FVal.inf ∧
    sanitizeF FVal.nan = FVal.finite 0 ∧
    divF (FVal.finite 4) (fsqrt (FVal.finite 4)) = FVal.finite 2 ∧
    ((glm2mvpWithin idEnv "epi" 0 true (some maskVol1) true 0 0 ["A"] [] true
        [copeVol4] [varVol4]).2.toOption.map (fun o => o.X)) =
      some [[FVal.finite 2]] ∧
    ((glm2mvpWithin idEnv "epi" 0 true (some maskVol1) true 0 0 ["A"] [] true
        [copeVol4] [varVol0]).2.toOption.map (fun o => o.X)) =
      some [[FVal.inf]] :=
  beta2t_sanitation FVal.inf (by decide)

/-! ### List lemmas supporting the between-run assembly claims -/

theorem getD_replicate {α : Type} (a d : α) :
    ∀ (n j : Nat), j < n → (List.replicate n a).getD j d = a := by
  intro n
  induction n with
  | zero => intro j h; omega
  | succ n ih =>
      intro j h
      cases j with
      | zero => rfl
      | succ j => exact ih j (by omega)

theorem getD_map {α β : Type} (f : α → β) (l : List α) :
    ∀ (j : Nat) (d : α), (l.map f).getD j (f d) = f (l.getD j d) := by
  induction l with
  | nil => intro j d; rfl
  | cons a l ih =>
      intro j d
      cases j with
      | zero => rfl
      | succ j => exact ih j d

theorem trueIdx_length (m : List Bool) : (trueIdx m).length = countTrue m := by
  induction m with
  | nil => rfl
  | cons b r ih => cases b <;> simp [trueIdx, countTrue, ih]

theorem trueIdx_sorted (m : List Bool) :
    List.Pairwise (· < ·) (trueIdx m) := by
  induction m with
  | nil => simp [trueIdx]
  | cons b r ih =>
      cases b with
      | false =>
          simp only [trueIdx]
          exact ih.map _ (fun a b h => by omega)
      | true =>
          simp only [trueIdx]
          refine List.Pairwise.cons ?_ (ih.map _ (fun a b h => by omega))
          intro x hx
          rcases List.mem_map.1 hx with ⟨y, _, rfl⟩
          omega

theorem trueIdx_mem (m : List Bool) :
    ∀ j : Nat, j ∈ trueIdx m ↔ m.getD j false = true := by
  induction m with
  | nil => intro j; simp [trueIdx]
  | cons b r ih =>
      intro j
      cases b with
      | true =>
          cases j with
          | zero => simp [trueIdx]
          | succ j =>
              simp only [trueIdx, List.mem_cons, List.mem_map]
              constructor
              · rintro (h | ⟨y, hy, hyj⟩)
                · omega
                · have hyy : y = j := by omega
                  rw [hyy] at hy
                  exact (ih j).1 hy
              · intro h
                exact Or.inr ⟨j, (ih j).2 h, rfl⟩
      | false =>
          cases j with
          | zero =>
              simp only [trueIdx, List.mem_map]
              constructor
              · rintro ⟨y, _, hy⟩; omega
              · intro h; simp [List.getD] at h
          | succ j =>
              simp only [trueIdx, List.mem_map]
              constructor
              · rintro ⟨y, hy, hyj⟩
                have hyy : y = j := by omega
                rw [hyy] at hy
                exact (ih j).1 hy
              · intro h
                exact ⟨j, (ih j).2 h, rfl⟩

theorem maskSel_map {α β : Type} (f : α → β) :
    ∀ (xs : List α) (m : List Bool),
      maskSel (xs.map f) m = (maskSel xs m).map f := by
  intro xs
  induction xs with
  | nil => intro m; cases m <;> rfl
  | cons x xs ih =>
      intro m
      cases m with
      | nil => rfl
      | cons b m =>
          cases b <;> simp [maskSel, ih]

theorem maskSel_length_le {α : Type} :
    ∀ (xs : List α) (m : List Bool), (maskSel xs m).length ≤ countTrue m := by
  intro xs
  induction xs with
  | nil => intro m; cases m <;> simp [maskSel, countTrue]
  | cons x xs ih =>
      intro m
      cases m with
      | nil => simp [maskSel]
      | cons b m =>
          cases b with
          | true => simpa [maskSel, countTrue] using ih m
          | false =>
              simp only [maskSel, countTrue]
              exact ih m

theorem maskSel_length_eq {α : Type} :
    ∀ (xs : List α) (m : List Bool), xs.length = m.length →
      (maskSel xs m).length = countTrue m := by
  intro xs
  induction xs with
  | nil => intro m h; cases m with
      | nil => rfl
      | cons b m => simp at h
  | cons x xs ih =>
      intro m h
      cases m with
      | nil => simp at h
      | cons b m =>
          cases b with
          | true => simpa [maskSel, countTrue] using ih m (by simpa using h)
          | false =>
              simp only [maskSel, countTrue]
              exact ih m (by simpa using h)

theorem maskSel_range (m : List Bool) :
    maskSel (List.range m.length) m = trueIdx m := by
  induction m with
  | nil => rfl
  | cons b r ih =>
      have hr : List.range (r.length + 1) =
          0 :: (List.range r.length).map (· + 1) := by
        simpa [Nat.succ_eq_add_one] using List.range_succ_eq_map r.length
      cases b with
      | true =>
          simp only [List.length_cons, hr, maskSel, if_pos, trueIdx]
          rw [maskSel_map, ih]
      | false =>
          simp only [List.length_cons, hr, maskSel, trueIdx]
          rw [if_neg (by simp), maskSel_map, ih]

theorem writeSlice_length (x : List FVal) (s : Nat) (v : List FVal) :
    (writeSlice x s v).length = x.length := by
  unfold writeSlice
  simp only [List.length_append, List.length_take, List.length_drop]
  omega

theorem writeSlice_getD_ge (x : List FVal) (s : Nat) (v : List FVal)
    (j : Nat) (d : FVal) (h : s + v.length ≤ j) :
    (writeSlice x s v).getD j d = x.getD j d := by
  rcases Nat.lt_or_ge j x.length with hj | hj
  · have hsx : s ≤ x.length := by omega
    have hvx : v.length ≤ x.length - s := by omega
    unfold writeSlice
    rw [List.getD_append_right _ _ _ _ (by simp; omega)]
    rw [List.getD_eq_getElem?_getD, List.getElem?_drop,
        ← List.getD_eq_getElem?_getD]
    congr 1
    simp only [List.length_append, List.length_take]
    omega
  · rw [List.getD_eq_default _ _ (by rw [writeSlice_length]; omega),
        List.getD_eq_default _ _ (by omega)]

/-- The ascending run `[s, s+1, ..., s+n-1]`, used to describe the loop
counter of the between-run assembly. -/
def rng : Nat → Nat → List Nat
  | _, 0 => []
  | s, n + 1 => s :: rng (s + 1) n

theorem rngBind_length (nf : Nat) :
    ∀ (k a : Nat),
      ((rng a k).bind (fun q => List.replicate nf q)).length = k * nf := by
  intro k
  induction k with
  | zero => intro a; simp [rng]
  | succ k ih =>
      intro a
      simp only [rng, List.cons_bind, List.length_append, List.length_replicate,
        ih (a + 1)]
      ring

theorem rngBind_getD (nf : Nat) :
    ∀ (k a j p : Nat) (d : Nat), j < k → p < nf →
      ((rng a k).bind (fun q => List.replicate nf q)).getD (j * nf + p) d =
        a + j := by
  intro k
  induction k with
  | zero => intro a j p d hj; omega
  | succ k ih =>
      intro a j p d hj hp
      simp only [rng, List.cons_bind]
      cases j with
      | zero =>
          rw [List.getD_append _ _ _ _ (by simp; omega)]
          simpa using getD_replicate a d nf p hp
      | succ j =>
          rw [List.getD_append_right _ _ _ _ (by simp [Nat.succ_mul]; omega)]
          have harith : (j + 1) * nf + p - (List.replicate nf a).length =
              j * nf + p := by simp [Nat.succ_mul]; omega
          rw [harith, ih (a + 1) j p d (by omega) hp]
          omega

theorem constBind_block {β : Type} (f : β → List Nat) (u : List Nat) :
    ∀ (pairs : List β), (∀ x ∈ pairs, f x = u) →
      ∀ i < pairs.length,
        ((pairs.bind f).drop (i * u.length)).take u.length = u := by
  intro pairs
  induction pairs with
  | nil => intro _ i hi; simp at hi
  | cons p rest ih =>
      intro hall i hi
      have hp : f p = u := hall p (List.mem_cons_self p rest)
      simp only [List.cons_bind, hp]
      cases i with
      | zero =>
          simpa using List.take_left u (rest.bind f)
      | succ i =>
          have harith : (i + 1) * u.length = u.length + i * u.length := by
            simp [Nat.succ_mul]; omega
          rw [harith, List.drop_append]
          exact ih (fun x hx => hall x (List.mem_cons_of_mem p hx)) i
            (by simpa using hi)

theorem betweenLoop_cid (mask : List Bool) (nf : Nat) (b2t : Bool) :
    ∀ (pairs : List (Volume × Volume)) (i : Nat) (x : List FVal)
      (cid vidx : List Nat) (evs : List Event),
      (betweenLoop mask nf b2t i x cid vidx evs pairs).2.1 =
        cid ++ (rng i pairs.length).bind (fun q => List.replicate nf q) := by
  intro pairs
  induction pairs with
  | nil => intro i x cid vidx evs; simp [betweenLoop, rng]
  | cons pr rest ih =>
      intro i x cid vidx evs
      cases pr with
      | mk c v =>
          simp only [betweenLoop, List.length_cons, rng, List.cons_bind]
          rw [ih]
          simp [List.append_assoc]

theorem betweenLoop_vidx (mask : List Bool) (nf : Nat) (b2t : Bool) :
    ∀ (pairs : List (Volume × Volume)) (i : Nat) (x : List FVal)
      (cid vidx : List Nat) (evs : List Event),
      (betweenLoop mask nf b2t i x cid vidx evs pairs).2.2.1 =
        vidx ++ pairs.bind (fun pr => voxOf pr.1 mask) := by
  intro pairs
  induction pairs with
  | nil => intro i x cid vidx evs; simp [betweenLoop]
  | cons pr rest ih =>
      intro i x cid vidx evs
      cases pr with
      | mk c v =>
          simp only [betweenLoop, List.cons_bind]
          rw [ih]
          simp [List.append_assoc]

theorem betweenLoop_X_length (mask : List Bool) (nf : Nat) (b2t : Bool) :
    ∀ (pairs : List (Volume × Volume)) (i : Nat) (x : List FVal)
      (cid vidx : List Nat) (evs : List Event),
      (betweenLoop mask nf b2t i x cid vidx evs pairs).1.length = x.length := by
  intro pairs
  induction pairs with
  | nil => intro i x cid vidx evs; rfl
  | cons pr rest ih =>
      intro i x cid vidx evs
      cases pr with
      | mk c v =>
          simp only [betweenLoop]
          rw [ih, writeSlice_length]

theorem betweenLoop_X_getD_ge (mask : List Bool) (nf : Nat) (b2t : Bool)
    (hnf : countTrue mask ≤ nf) :
    ∀ (pairs : List (Volume × Volume)) (i : Nat) (x : List FVal)
      (cid vidx : List Nat) (evs : List Event) (j : Nat) (d : FVal),
      (i + pairs.length) * nf ≤ j →
      (betweenLoop mask nf b2t i x cid vidx evs pairs).1.getD j d =
        x.getD j d := by
  intro pairs
  induction pairs with
  | nil => intro i x cid vidx evs j d hj; rfl
  | cons pr rest ih =>
      intro i x cid vidx evs j d hj
      cases pr with
      | mk c v =>
          simp only [betweenLoop]
          have hcd : (if b2t then
              List.zipWith divF (maskSel c.data mask)
                ((maskSel v.data mask).map fsqrt)
            else maskSel c.data mask).length ≤ nf := by
            split
            · calc (List.zipWith divF (maskSel c.data mask)
                  ((maskSel v.data mask).map fsqrt)).length
                  ≤ (maskSel c.data mask).length := by
                    rw [List.length_zipWith]; omega
                _ ≤ countTrue mask := maskSel_length_le c.data mask
                _ ≤ nf := hnf
            · calc (maskSel c.data mask).length
                  ≤ countTrue mask := maskSel_length_le c.data mask
                _ ≤ nf := hnf
          simp only [List.length_cons] at hj
          have hj' : (i + 1 + rest.length) * nf ≤ j := by
            have heq : i + 1 + rest.length = i + (rest.length + 1) := by omega
            rw [heq]; exact hj
          rw [ih (i + 1) _ _ _ _ j d hj']
          apply writeSlice_getD_ge
          have : (i + 1) * nf ≤ j := by
            calc (i + 1) * nf ≤ (i + (rest.length + 1)) * nf :=
              Nat.mul_le_mul_right nf (by omega)
            _ ≤ j := hj
          calc i * nf + (if b2t then
              List.zipWith divF (maskSel c.data mask)
                ((maskSel v.data mask).map fsqrt)
            else maskSel c.data mask).length
              ≤ i * nf + nf := by omega
            _ = (i + 1) * nf := by ring
            _ ≤ j := this

/-! ### Claim C7 (within-run assembly on the 3 × 10 example) -/

/-- C7, evaluated on the concrete inputs of the claim (3 condition volumes of
10 voxels, an all-selecting mask, labels `["A", "B", "A"]`): the matrix has 3
rows of 10 features and `y = [0, 1, 0]` as claimed, but `n_inst` — the code's
per-class instance count — comes out as `[2, 1, 2]`, one entry per *trial*
(each trial tagged with the frequency of its own label), not one entry per
class `{A: 2, B: 1}`: line 61 of `fsl2mvp_within.py` iterates
`for cls in cl` over the raw labels where the sibling `class_idx`/`trial_idx`
lines iterate over `self.class_names`. -/
theorem within_assembly_eval :
    ((glm2mvpWithin idEnv "epi" 0 false (some vol10) true 0 0 ["A", "B", "A"]
        [] true [vol10, vol10, vol10] []).2.toOption.map
      (fun o => (o.X.map List.length, o.y, o.n_inst, o.class_names))) =
      some ([10, 10, 10], [0, 1, 0], [2, 1, 2], ["A", "B"]) ∧
    nInst ["A", "B", "A"] ≠ [2, 1] := by
  with_unfolding_all decide

/-! ### The successful between-run extraction in terms of its loop -/

/-- Whenever `Fsl2mvpBetween.glm2mvp` is run with a supplied mask volume and
succeeds, its data and bookkeeping fields are exactly the results of the
assembly loop over the retained cope/varcope pairs, started from the
pre-allocated zero vector and empty tag lists. -/
theorem between_ok_fields (env : Env) (refSpace : String) (t : ℚ) (b2t : Bool)
    (mv : Volume) (md : Bool) (nfd nc : Nat) (labels : List String)
    (outcome : Option ℚ) (ri : List Nat) (rstd : Bool) (cs vs : List Volume)
    (out : BetweenOut)
    (h : (glm2mvpBetween env refSpace t b2t (some mv) md nfd nc labels
            outcome ri rstd cs vs).2 = .ok out) :
    out.mvp = (buildMaskState env refSpace t mv).2 ∧
    out.X = (betweenLoop (buildMaskState env refSpace t mv).2.mask_index
        (buildMaskState env refSpace t mv).2.n_features b2t 0
        (List.replicate ((buildMaskState env refSpace t mv).2.n_features *
          labels.length) (FVal.finite 0)) [] [] []
        ((betweenRetained env refSpace rstd cs vs ri).1.zip
         (betweenRetained env refSpace rstd cs vs ri).2)).1.map sanitizeF ∧
    out.contrast_id = (betweenLoop (buildMaskState env refSpace t mv).2.mask_index
        (buildMaskState env refSpace t mv).2.n_features b2t 0
        (List.replicate ((buildMaskState env refSpace t mv).2.n_features *
          labels.length) (FVal.finite 0)) [] [] []
        ((betweenRetained env refSpace rstd cs vs ri).1.zip
         (betweenRetained env refSpace rstd cs vs ri).2)).2.1 ∧
    out.voxel_idx = (betweenLoop (buildMaskState env refSpace t mv).2.mask_index
        (buildMaskState env refSpace t mv).2.n_features b2t 0
        (List.replicate ((buildMaskState env refSpace t mv).2.n_features *
          labels.length) (FVal.finite 0)) [] [] []
        ((betweenRetained env refSpace rstd cs vs ri).1.zip
         (betweenRetained env refSpace rstd cs vs ri).2)).2.2.1 := by
  unfold glm2mvpBetween at h
  split at h
  · simp at h
  · rw [betweenAfterCheck] at h
    cases hl : ((betweenRetained env refSpace rstd cs vs ri).1.zip
        (betweenRetained env refSpace rstd cs vs ri).2).getLast? with
    | none => rw [hl] at h; simp at h
    | some c =>
        rw [hl] at h
        simp only [Except.ok.injEq] at h
        rw [← h]
        exact ⟨rfl, rfl, rfl, rfl⟩

/-- With a supplied mask, a valid reference space and at least one retained
cope/varcope pair, the between-run extraction succeeds. -/
theorem between_ok_exists (env : Env) (refSpace : String) (t : ℚ) (b2t : Bool)
    (mv : Volume) (md : Bool) (nfd nc : Nat) (labels : List String)
    (outcome : Option ℚ) (ri : List Nat) (rstd : Bool) (cs vs : List Volume)
    (hr : refSpace = "epi" ∨ refSpace = "mni")
    (hne : (betweenRetained env refSpace rstd cs vs ri).1.zip
        (betweenRetained env refSpace rstd cs vs ri).2 ≠ []) :
    ∃ out, (glm2mvpBetween env refSpace t b2t (some mv) md nfd nc labels
        outcome ri rstd cs vs).2 = .ok out := by
  unfold glm2mvpBetween
  rw [if_neg (not_not_intro hr), betweenAfterCheck]
  cases hl : ((betweenRetained env refSpace rstd cs vs ri).1.zip
      (betweenRetained env refSpace rstd cs vs ri).2).getLast? with
  | none => exact absurd (List.getLast?_eq_none_iff.1 hl) hne
  | some c => exact ⟨_, rfl⟩

/-! ### Claim C8 (between-run flat assembly and bookkeeping) -/

/-- C8: a successful between-run extraction in EPI space with a supplied mask
volume (away from the `(91, 109, 91)` re-registration case), `n` retained
copes, varcopes and labels, geometry-consistent volumes (decode contract
`data.length = prod shape`, shared shape, fewer than `2^32` voxels so the
`uint32` voxel-index arithmetic is exact): `X` is a flat vector of length
`feature_count × n`; for each 0-based condition `i` every `contrast_id` entry
of the block `[i·feature_count, (i+1)·feature_count)` equals `i`; the
`voxel_idx` block of every condition equals the list of linear positions at
which the selection is true, which is strictly increasing and characterises
exactly the selected voxels. -/
theorem between_assembly (env : Env) (t : ℚ) (b2t : Bool) (md : Bool)
    (nfd nc : Nat) (labels : List String) (outcome : Option ℚ) (rstd : Bool)
    (mv : Volume) (copes varcopes : List Volume) (n : Nat) (out : BetweenOut)
    (hm91 : mv.shape ≠ [91, 109, 91])
    (hmv : mv.data.length = prodL mv.shape)
    (hsz : prodL mv.shape < 2 ^ 32)
    (hc : copes.length = n) (hv : varcopes.length = n)
    (hl : labels.length = n)
    (hshape : ∀ c ∈ copes, c.shape = mv.shape)
    (hok : (glm2mvpBetween env "epi" t b2t (some mv) md nfd nc labels outcome
        [] rstd copes varcopes).2 = .ok out) :
    out.X.length = countTrue (mv.data.map (fun x => fgtQ x t)) * n ∧
    out.contrast_id.length =
      countTrue (mv.data.map (fun x => fgtQ x t)) * n ∧
    (∀ i p, i < n → p < countTrue (mv.data.map (fun x => fgtQ x t)) →
      out.contrast_id.getD
        (i * countTrue (mv.data.map (fun x => fgtQ x t)) + p) 0 = i) ∧
    (∀ i, i < n →
      ((out.voxel_idx.drop
          (i * countTrue (mv.data.map (fun x => fgtQ x t)))).take
        (countTrue (mv.data.map (fun x => fgtQ x t)))) =
        trueIdx (mv.data.map (fun x => fgtQ x t))) ∧
    List.Pairwise (· < ·) (trueIdx (mv.data.map (fun x => fgtQ x t))) ∧
    (∀ j, j ∈ trueIdx (mv.data.map (fun x => fgtQ x t)) ↔
      (mv.data.map (fun x => fgtQ x t)).getD j false = true) := by
  have h91 : ¬("epi" = "epi" ∧ mv.shape = [91, 109, 91]) := by
    simp [hm91]
  have hbuild : (buildMaskState env "epi" t mv).2 =
      ⟨mv.data.map (fun x => fgtQ x t), mv.shape,
       countTrue (mv.data.map (fun x => fgtQ x t))⟩ := by
    rw [buildMaskState_no91 env "epi" t mv h91]
  have hret : betweenRetained env "epi" rstd copes varcopes [] =
      (copes, varcopes) := by
    simp [betweenRetained, applyRemove, sortDesc]
  have hfields := between_ok_fields env "epi" t b2t mv md nfd nc labels
    outcome [] rstd copes varcopes out hok
  rw [hbuild, hret] at hfields
  have hpl : (copes.zip varcopes).length = n := by
    rw [List.length_zip, hc, hv, Nat.min_self]
  have hsellen : (mv.data.map (fun x => fgtQ x t)).length = prodL mv.shape := by
    rw [List.length_map, hmv]
  have hvox : ∀ pr ∈ copes.zip varcopes,
      voxOf pr.1 (mv.data.map (fun x => fgtQ x t)) =
        trueIdx (mv.data.map (fun x => fgtQ x t)) := by
    intro pr hpr
    have hc1 : pr.1 ∈ copes := by
      rcases pr with ⟨a, b⟩
      exact (List.of_mem_zip hpr).1
    rw [voxOf, hshape pr.1 hc1, Nat.mod_eq_of_lt hsz, ← hsellen,
        maskSel_range]
  refine ⟨?_, ?_, ?_, ?_, trueIdx_sorted _, trueIdx_mem _⟩
  · rw [hfields.2.1, List.length_map,
        betweenLoop_X_length _ _ _ _ _ _ _ _ _, List.length_replicate, hl]
  · rw [hfields.2.2.1, betweenLoop_cid _ _ _ _ _ _ _ _ _,
        List.nil_append, hpl, rngBind_length, Nat.mul_comm]
  · intro i p hi hp
    rw [hfields.2.2.1, betweenLoop_cid _ _ _ _ _ _ _ _ _, List.nil_append,
        hpl]
    simpa using rngBind_getD _ n 0 i p 0 hi hp
  · intro i hi
    rw [hfields.2.2.2, betweenLoop_vidx _ _ _ _ _ _ _ _ _, List.nil_append]
    have := constBind_block (fun pr => voxOf pr.1
        (mv.data.map (fun x => fgtQ x t)))
      (trueIdx (mv.data.map (fun x => fgtQ x t)))
      (copes.zip varcopes) hvox i (by rw [hpl]; exact hi)
    rwa [trueIdx_length] at this

/-- The output entity of the 2-condition × 5-voxel between-run extraction
used by the C8 witness. -/
def w8out : BetweenOut :=
  ⟨⟨List.replicate 5 true, [5], 5⟩, none, 2, ["a", "b"],
   List.replicate 10 (FVal.finite 1),
   [0, 0, 0, 0, 0, 1, 1, 1, 1, 1],
   [0, 1, 2, 3, 4, 0, 1, 2, 3, 4]⟩

/-- Witness for C8 on the claim's own example: 2 conditions of 5 selected
voxels give a flat length-10 vector with `contrast_id` block-constant and
`voxel_idx` repeating the strictly increasing true positions. -/
theorem between_assembly_witness :
    w8out.X.length = countTrue (vol5.data.map (fun x => fgtQ x 0)) * 2 ∧
    w8out.contrast_id.length =
      countTrue (vol5.data.map (fun x => fgtQ x 0)) * 2 ∧
    (∀ i p, i < 2 → p < countTrue (vol5.data.map (fun x => fgtQ x 0)) →
      w8out.contrast_id.getD
        (i * countTrue (vol5.data.map (fun x => fgtQ x 0)) + p) 0 = i) ∧
    (∀ i, i < 2 →
      ((w8out.voxel_idx.drop
          (i * countTrue (vol5.data.map (fun x => fgtQ x 0)))).take
        (countTrue (vol5.data.map (fun x => fgtQ x 0)))) =
        trueIdx (vol5.data.map (fun x => fgtQ x 0))) ∧
    List.Pairwise (· < ·) (trueIdx (vol5.data.map (fun x => fgtQ x 0))) ∧
    (∀ j, j ∈ trueIdx (vol5.data.map (fun x => fgtQ x 0)) ↔
      (vol5.data.map (fun x => fgtQ x 0)).getD j false = true) :=
  between_assembly idEnv 0 false true 0 0 ["a", "b"] none true vol5
    [vol5, vol5] [vol5, vol5] 2 w8out (by decide) (by decide) (by decide)
    (by decide) (by decide) (by decide) (by decide)
    (by with_unfolding_all decide)

/-! ### Claim C10 (no count validation in the between-run extraction) -/

/-- C10 counterexample: with zero retained effect volumes and one retained
label — an input squarely inside the claim's "fewer volumes than labels"
scope — the between-run extraction does *not* complete: the pair loop never
runs, `cope_img` is unbound at the header-taking line, and the call dies
with a `NameError` instead of succeeding. -/
theorem between_empty_copes_error :
    ([] : List Volume).length < ["a"].length ∧
    (glm2mvpBetween idEnv "epi" 0 true (some maskVol1) true 0 0 ["a"] none []
        true [] []).2 = .error .nameError := by
  with_unfolding_all decide

/-- C10 amended: the between-run extraction performs no condition/label count
validation, but completing without error additionally needs at least one
cope/varcope pair.  With `0 < min copes.length varcopes.length` pairs and
fewer copes than labels it succeeds: copes are paired with variance volumes
positionally up to the shorter list's length (`contrast_id` spans exactly
`min` blocks), `X` keeps the pre-allocated length `feature_count × n_labels`,
and every entry from position `min · feature_count` on is still zero. -/
theorem between_missing_volumes (env : Env) (t : ℚ) (b2t : Bool) (md : Bool)
    (nfd nc : Nat) (labels : List String) (outcome : Option ℚ) (rstd : Bool)
    (mv : Volume) (copes varcopes : List Volume)
    (hm91 : mv.shape ≠ [91, 109, 91])
    (hk : 0 < min copes.length varcopes.length)
    (hfew : copes.length < labels.length) :
    ∃ out, (glm2mvpBetween env "epi" t b2t (some mv) md nfd nc labels outcome
        [] rstd copes varcopes).2 = .ok out ∧
      out.X.length =
        countTrue (mv.data.map (fun x => fgtQ x t)) * labels.length ∧
      out.contrast_id.length =
        min copes.length varcopes.length *
          countTrue (mv.data.map (fun x => fgtQ x t)) ∧
      (∀ j, min copes.length varcopes.length *
          countTrue (mv.data.map (fun x => fgtQ x t)) ≤ j →
        out.X.getD j (FVal.finite 0) = FVal.finite 0) := by
  have h91 : ¬("epi" = "epi" ∧ mv.shape = [91, 109, 91]) := by
    simp [hm91]
  have hbuild : (buildMaskState env "epi" t mv).2 =
      ⟨mv.data.map (fun x => fgtQ x t), mv.shape,
       countTrue (mv.data.map (fun x => fgtQ x t))⟩ := by
    rw [buildMaskState_no91 env "epi" t mv h91]
  have hret : betweenRetained env "epi" rstd copes varcopes [] =
      (copes, varcopes) := by
    simp [betweenRetained, applyRemove, sortDesc]
  have hpl : (copes.zip varcopes).length =
      min copes.length varcopes.length := List.length_zip _ _
  have hne : (betweenRetained env "epi" rstd copes varcopes []).1.zip
      (betweenRetained env "epi" rstd copes varcopes []).2 ≠ [] := by
    rw [hret]
    intro hnil
    have h0 : (copes.zip varcopes).length = 0 := by
      simp only at hnil
      rw [hnil]
      rfl
    rw [hpl] at h0
    omega
  obtain ⟨out, hok⟩ := between_ok_exists env "epi" t b2t mv md nfd nc labels
    outcome [] rstd copes varcopes (Or.inl rfl) hne
  have hfields := between_ok_fields env "epi" t b2t mv md nfd nc labels
    outcome [] rstd copes varcopes out hok
  rw [hbuild, hret] at hfields
  refine ⟨out, hok, ?_, ?_, ?_⟩
  · rw [hfields.2.1, List.length_map,
        betweenLoop_X_length _ _ _ _ _ _ _ _ _, List.length_replicate]
  · rw [hfields.2.2.1, betweenLoop_cid _ _ _ _ _ _ _ _ _, List.nil_append,
        rngBind_length, hpl]
  · intro j hj
    rw [hfields.2.1]
    have hz : sanitizeF (FVal.finite 0) = FVal.finite 0 := rfl
    rw [← hz, getD_map, betweenLoop_X_getD_ge _ _ _ (le_refl _) _ _ _ _ _ _
      _ _ (by rw [hpl]; simpa using hj)]
    rcases Nat.lt_or_ge j (countTrue (mv.data.map (fun x => fgtQ x t)) *
        labels.length) with hlt | hge
    · rw [getD_replicate _ _ _ _ (by simpa using hlt)]
      rfl
    · rw [List.getD_eq_default _ _ (by simpa using hge)]

/-- Witness for C10 amended: one cope/varcope pair with two labels completes,
with `contrast_id` spanning one block and the second block of `X` all
zero. -/
theorem between_missing_volumes_witness :
    ∃ out, (glm2mvpBetween idEnv "epi" 0 false (some maskVol1) true 0 0
        ["a", "b"] none [] true [copeVol4] [varVol4]).2 = .ok out ∧
      out.X.length =
        countTrue (maskVol1.data.map (fun x => fgtQ x 0)) * ["a", "b"].length ∧
      out.contrast_id.length =
        min [copeVol4].length [varVol4].length *
          countTrue (maskVol1.data.map (fun x => fgtQ x 0)) ∧
      (∀ j, min [copeVol4].length [varVol4].length *
          countTrue (maskVol1.data.map (fun x => fgtQ x 0)) ≤ j →
        out.X.getD j (FVal.finite 0) = FVal.finite 0) :=
  between_missing_volumes idEnv 0 false true 0 0 ["a", "b"] none true
    maskVol1 [copeVol4] [varVol4] (by decide) (by decide) (by decide)

end Skbold
